import Mathlib

/-!
Verification development for the Raja-Mantri game backend (`main.py`).

The two process-wide mutable dictionaries `rooms` and `players` become a
`ServerState` record that is threaded explicitly through each endpoint
function.  Python dictionaries are modelled as insertion-ordered
association lists (`List (String × _)`) with Python assignment semantics
(`setA`: replace the entry in place when the key is present, append
otherwise).  The opaque unique-id source (`uuid.uuid4`) and the result of
`random.shuffle` are passed in as parameters.  A raised `HTTPException`
is modelled as `Failure.http`; any other unhandled Python exception
(`KeyError`, `StopIteration`, `IndexError`) as `Failure.crash`.  Every
endpoint returns the global state as it is after the call, together with
its outcome, so that partial mutation before an exception is visible.
-/

/-- The four fixed roles of `roles = ["Raja", "Mantri", "Chor", "Sipahi"]`. -/
inductive Role where
  | Raja
  | Mantri
  | Chor
  | Sipahi
deriving DecidableEq

/-- Base point table `BASE_POINTS = {"Raja": 1000, "Mantri": 800, "Sipahi": 500, "Chor": 0}`. -/
def BASE_POINTS : Role → Nat
  | .Raja => 1000
  | .Mantri => 800
  | .Sipahi => 500
  | .Chor => 0

/-- The role list as it appears in `assign_roles` before shuffling. -/
def ROLES : List Role := [.Raja, .Mantri, .Chor, .Sipahi]

/-- Room status strings used by the code ("waiting", "finished"); "assigned"
is the third status named by the specification's state machine. -/
inductive Status where
  | waiting
  | assigned
  | finished
deriving DecidableEq

/-- A raised `fastapi.HTTPException` with its status code and detail. -/
structure HTTPException where
  status_code : Nat
  detail : String
deriving DecidableEq

/-- A failing endpoint outcome: a deliberately raised `HTTPException`, or an
unhandled Python exception (`KeyError` / `StopIteration` / `IndexError`),
which FastAPI would surface as a 500 hard failure. -/
inductive Failure where
  | http (e : HTTPException)
  | crash
deriving DecidableEq

/-- An entry of the global `players` dict: `{name, roomId, totalScore}`. -/
structure Player where
  name : String
  roomId : String
  totalScore : Nat
deriving DecidableEq

/-- An entry of the global `rooms` dict.  Keys that the Python code only adds
later (`roles`, `mantriId`, `guess`, `scores`) are `Option`s that start as
`none`; `leaderboard` is created by `setdefault` with default `{}`, which is
observationally the empty list. -/
structure Room where
  players : List String
  status : Status
  roles : Option (List (String × Role)) := none
  mantriId : Option String := none
  guess : Option (String × String) := none
  scores : Option (List (String × Nat)) := none
  leaderboard : List (String × Nat) := []
deriving DecidableEq

/-- The process-wide mutable state: the `rooms` and `players` dicts. -/
structure ServerState where
  rooms : List (String × Room)
  players : List (String × Player)
deriving DecidableEq

deriving instance DecidableEq for Except

/-- Dictionary lookup (`d[k]` / `k in d`), first matching key. -/
def lookupA {α : Type} : List (String × α) → String → Option α
  | [], _ => none
  | (k, v) :: rest, key => if k = key then some v else lookupA rest key

/-- Dictionary assignment `d[k] = v`: replace the first entry with key `k` in
place, append a new entry when the key is absent. -/
def setA {α : Type} : List (String × α) → String → α → List (String × α)
  | [], k, v => [(k, v)]
  | (k', v') :: rest, k, v =>
    if k' = k then (k, v) :: rest else (k', v') :: setA rest k v

/-- Endpoint `POST /room/create` (`create_room`).  The two fresh uuids are
parameters; returns the new state and the response message. -/
def create_room (st : ServerState) (room_id player_id name : String) :
    ServerState × String :=
  ({ rooms := setA st.rooms room_id ({ players := [player_id], status := .waiting }),
     players := setA st.players player_id
       ({ name := name, roomId := room_id, totalScore := 0 }) },
   "Room created. Waiting for players (1/4).")

/-- Endpoint `POST /room/join` (`join_room`).  The fresh uuid `player_id` is a
parameter; on success returns the new player id and the roster size. -/
def join_room (st : ServerState) (roomId name player_id : String) :
    ServerState × Except Failure (String × Nat) :=
  match lookupA st.rooms roomId with
  | none => (st, .error (.http ⟨404, "Room not found"⟩))
  | some room =>
    if room.status ≠ .waiting then
      (st, .error (.http ⟨400, "Room not accepting joins right now"⟩))
    else if 4 ≤ room.players.length then
      (st, .error (.http ⟨400, "Room is full (4 players max)"⟩))
    else
      ({ rooms := setA st.rooms roomId ({ room with players := room.players ++ [player_id] }),
         players := setA st.players player_id
           ({ name := name, roomId := roomId, totalScore := 0 }) },
       .ok (player_id, room.players.length + 1))

/-- The list comprehension of `get_players`: `players[pid]["name"]` for each
roster member; `none` models the `KeyError` on a missing player. -/
def namesOf (ps : List (String × Player)) : List String → Option (List (String × String))
  | [] => some []
  | pid :: rest =>
    match lookupA ps pid with
    | none => none
    | some pl =>
      match namesOf ps rest with
      | none => none
      | some l => some ((pid, pl.name) :: l)

/-- Endpoint `GET /room/players/{roomId}` (`get_players`). -/
def get_players (st : ServerState) (roomId : String) :
    ServerState × Except Failure (List (String × String)) :=
  match lookupA st.rooms roomId with
  | none => (st, .error (.http ⟨404, "Room not found"⟩))
  | some room =>
    match namesOf st.players room.players with
    | none => (st, .error .crash)
    | some l => (st, .ok l)

/-- Endpoint `POST /room/assign/{roomId}` (`assign_roles`).  `shuffled` is the
role list after `random.shuffle` (always a permutation of `ROLES` in the real
program).  The dict `room_roles` is built by the indexed loop, so a too-short
`shuffled` is the loop's `IndexError` and a missing Mantri the
`StopIteration` of `next(...)` — the latter strikes after `roles` was
already stored on the room. -/
def assign_roles (st : ServerState) (roomId : String) (shuffled : List Role) :
    ServerState × Except Failure Bool :=
  match lookupA st.rooms roomId with
  | none => (st, .error (.http ⟨404, "Room not found"⟩))
  | some room =>
    if room.players.length ≠ 4 then
      (st, .error (.http ⟨400, "Need exactly 4 players to assign roles"⟩))
    else if room.players.length ≤ shuffled.length then
      let room_roles :=
        (room.players.zip shuffled).foldl (fun acc p => setA acc p.1 p.2) []
      match room_roles.find? (fun p => p.2 == Role.Mantri) with
      | none =>
        let room1 : Room := { room with roles := some room_roles }
        ({ st with rooms := setA st.rooms roomId room1 }, .error .crash)
      | some mp =>
        let room2 : Room := { room with roles := some room_roles, mantriId := some mp.1 }
        ({ st with rooms := setA st.rooms roomId room2 }, .ok true)
    else
      (st, .error .crash)

/-- Payloads of `GET /role/me/...`: either the soft `{"error": ...}` dict or
the `{"playerId", "role"}` dict. -/
inductive RolePayload where
  | errorPayload (msg : String)
  | rolePayload (playerId : String) (role : Role)
deriving DecidableEq

/-- Endpoint `GET /role/me/{roomId}/{playerId}` (`get_my_role`).  Note the
code indexes `rooms[roomId]["roles"]` directly, so a room without assigned
roles produces a `KeyError` (`Failure.crash`), not a soft error payload. -/
def get_my_role (st : ServerState) (roomId playerId : String) :
    ServerState × Except Failure RolePayload :=
  match lookupA st.rooms roomId with
  | none => (st, .ok (.errorPayload "Room not found"))
  | some room =>
    match room.roles with
    | none => (st, .error .crash)
    | some rs =>
      match lookupA rs playerId with
      | none => (st, .ok (.errorPayload "Player not found"))
      | some r => (st, .ok (.rolePayload playerId r))

/-- The cumulative-update loop at the end of `mantri_guess`: for every
`(pid, pts)` of the round scores, add `pts` to the player's `totalScore` and
to the room's leaderboard entry.  `players[pid]` is indexed directly on the
left-hand side, so a missing player is a `KeyError`: the loop stops there and
the `Bool` component reports whether it ran to completion. -/
def updateTotals : List (String × Player) → List (String × Nat) → List (String × Nat) →
    List (String × Player) × List (String × Nat) × Bool
  | ps, lb, [] => (ps, lb, true)
  | ps, lb, (pid, pts) :: rest =>
    match lookupA ps pid with
    | none => (ps, lb, false)
    | some pl =>
      updateTotals (setA ps pid ({ pl with totalScore := pl.totalScore + pts }))
        (setA lb pid (((lookupA lb pid).getD 0) + pts)) rest

/-- The commit phase of `mantri_guess` (lines 172-184): store the guess, the
round scores and the "finished" status on the room, then run the
cumulative-update loop. -/
def commit (st : ServerState) (roomId mantriId targetId : String) (room : Room)
    (round_scores : List (String × Nat)) (msg : String) :
    ServerState × Except Failure (String × List (String × Nat)) :=
  let room1 : Room :=
    { room with guess := some (mantriId, targetId),
                scores := some round_scores, status := .finished }
  let r := updateTotals st.players room1.leaderboard round_scores
  let st2 : ServerState :=
    { rooms := setA (setA st.rooms roomId room1) roomId ({ room1 with leaderboard := r.2.1 }),
      players := r.1 }
  if r.2.2 then (st2, .ok (msg, round_scores)) else (st2, .error .crash)

/-- Endpoint `POST /guess/{roomId}` (`mantri_guess`). -/
def mantri_guess (st : ServerState) (roomId mantriId targetId : String) :
    ServerState × Except Failure (String × List (String × Nat)) :=
  match lookupA st.rooms roomId with
  | none => (st, .error (.http ⟨404, "Room not found"⟩))
  | some room =>
    match room.roles with
    | none => (st, .error (.http ⟨400, "Roles not assigned yet"⟩))
    | some rs =>
      if rs = [] then (st, .error (.http ⟨400, "Roles not assigned yet"⟩))
      else if mantriId ∉ room.players ∨ targetId ∉ room.players then
        (st, .error (.http ⟨404, "Invalid player id(s)"⟩))
      else if room.mantriId ≠ some mantriId then
        (st, .error (.http ⟨403, "Only the Mantri can submit a guess"⟩))
      else if room.status = .finished then
        (st, .error (.http ⟨400, "Round already finished"⟩))
      else
        match rs.find? (fun p => p.2 == Role.Chor) with
        | none => (st, .error .crash)
        | some cp =>
          let base := rs.map (fun p => (p.1, BASE_POINTS p.2))
          if targetId = cp.1 then
            commit st roomId mantriId targetId room base
              "Mantri guessed correctly. No points transfer."
          else
            match lookupA base cp.1 with
            | none => (st, .error .crash)
            | some cur =>
              commit st roomId mantriId targetId room
                (setA (setA base cp.1 (cur + BASE_POINTS Role.Mantri)) mantriId 0)
                "Mantri guessed incorrectly. Chor stole Mantri\x27s points."

/-- Payload of `GET /result/{roomId}`. -/
structure ResultPayload where
  roles : List (String × Role)
  guess : Option (String × String)
  roundScores : Option (List (String × Nat))
  leaderboard : List (String × Nat)
deriving DecidableEq

/-- Endpoint `GET /result/{roomId}` (`get_result`). -/
def get_result (st : ServerState) (roomId : String) :
    ServerState × Except Failure ResultPayload :=
  match lookupA st.rooms roomId with
  | none => (st, .error (.http ⟨404, "Room not found"⟩))
  | some room =>
    if room.status ≠ .finished then
      (st, .error (.http ⟨400, "Round not finished yet"⟩))
    else
      (st, .ok { roles := room.roles.getD [], guess := room.guess,
                 roundScores := room.scores, leaderboard := room.leaderboard })

/-- Well-formedness of one room relative to the player table: a duplicate-free
roster whose members are all keys of `players`, and a role map (when present)
whose keys are roster members and whose values are a permutation of the four
roles. -/
def RoomOK (st : ServerState) (room : Room) : Prop :=
  room.players.Nodup ∧
  (∀ pid, pid ∈ room.players → ∃ pl, lookupA st.players pid = some pl) ∧
  ∀ rs, room.roles = some rs →
    (∀ pid, pid ∈ rs.map Prod.fst → pid ∈ room.players) ∧
    (rs.map Prod.snd).Perm ROLES

/-- The cross-operation data invariant: every room of the store is well
formed. -/
def StoreInv (st : ServerState) : Prop :=
  ∀ rid room, lookupA st.rooms rid = some room → RoomOK st room

theorem lookupA_setA_self {α : Type} (l : List (String × α)) (k : String) (v : α) :
    lookupA (setA l k v) k = some v := by
  induction l with
  | nil => simp [setA, lookupA]
  | cons hd t ih =>
    obtain ⟨a, b⟩ := hd
    by_cases ha : a = k
    · simp [setA, ha, lookupA]
    · simp [setA, ha, lookupA, ih]

theorem lookupA_setA_ne {α : Type} (l : List (String × α)) (k k' : String) (v : α)
    (h : k' ≠ k) : lookupA (setA l k v) k' = lookupA l k' := by
  induction l with
  | nil =>
    simp only [setA, lookupA]
    rw [if_neg (Ne.symm h)]
  | cons hd t ih =>
    obtain ⟨a, b⟩ := hd
    by_cases ha : a = k
    · subst ha
      simp only [setA, if_pos rfl, lookupA]
      rw [if_neg (Ne.symm h), if_neg (Ne.symm h)]
    · simp only [setA, if_neg ha, lookupA]
      rw [ih]

theorem lookupA_mem {α : Type} {l : List (String × α)} {k : String} {v : α}
    (h : lookupA l k = some v) : (k, v) ∈ l := by
  induction l with
  | nil => simp [lookupA] at h
  | cons hd t ih =>
    obtain ⟨a, b⟩ := hd
    by_cases ha : a = k
    · subst ha
      simp [lookupA] at h
      simp [h]
    · simp [lookupA, ha] at h
      exact List.mem_cons_of_mem _ (ih h)

theorem lookupA_eq_none_iff {α : Type} {l : List (String × α)} {k : String} :
    lookupA l k = none ↔ k ∉ l.map Prod.fst := by
  induction l with
  | nil => simp [lookupA]
  | cons hd t ih =>
    obtain ⟨a, b⟩ := hd
    by_cases ha : a = k
    · subst ha; simp [lookupA]
    · have hka : k ≠ a := Ne.symm ha
      simp [lookupA, ha, ih, hka]

theorem lookupA_isSome_of_mem_keys {α : Type} {l : List (String × α)} {k : String}
    (h : k ∈ l.map Prod.fst) : ∃ v, lookupA l k = some v := by
  cases hv : lookupA l k with
  | none => exact absurd (lookupA_eq_none_iff.mp hv) (by simp [h])
  | some v => exact ⟨v, rfl⟩

theorem lookupA_eq_of_mem_nodup {α : Type} {l : List (String × α)} {k : String} {v : α}
    (hmem : (k, v) ∈ l) (hnd : (l.map Prod.fst).Nodup) : lookupA l k = some v := by
  induction l with
  | nil => simp at hmem
  | cons hd t ih =>
    obtain ⟨a, b⟩ := hd
    simp only [List.map_cons, List.nodup_cons] at hnd
    rcases List.mem_cons.mp hmem with heq | hmem'
    · cases heq
      simp [lookupA]
    · have hak : a ≠ k := by
        intro hh
        subst hh
        exact hnd.1 (List.mem_map.mpr ⟨(a, v), hmem', rfl⟩)
      simp only [lookupA, if_neg hak]
      exact ih hmem' hnd.2

theorem mem_keys_setA {α : Type} (l : List (String × α)) (k : String) (v : α) (q : String) :
    q ∈ (setA l k v).map Prod.fst ↔ q ∈ l.map Prod.fst ∨ q = k := by
  induction l with
  | nil => simp [setA]
  | cons hd t ih =>
    obtain ⟨a, b⟩ := hd
    by_cases ha : a = k
    · subst ha; simp [setA]; tauto
    · simp [setA, ha, ih]; tauto

theorem keys_setA_of_mem {α : Type} (l : List (String × α)) (k : String) (v : α)
    (h : k ∈ l.map Prod.fst) : (setA l k v).map Prod.fst = l.map Prod.fst := by
  induction l with
  | nil => simp at h
  | cons hd t ih =>
    obtain ⟨a, b⟩ := hd
    by_cases ha : a = k
    · subst ha; simp [setA]
    · have hk : k ∈ t.map Prod.fst := by
        simp only [List.map_cons, List.mem_cons] at h
        rcases h with h | h
        · exact absurd h.symm ha
        · exact h
      simp [setA, ha, ih hk]

theorem setA_eq_append_of_none {α : Type} {l : List (String × α)} {k : String} (v : α)
    (h : lookupA l k = none) : setA l k v = l ++ [(k, v)] := by
  induction l with
  | nil => simp [setA]
  | cons hd t ih =>
    obtain ⟨a, b⟩ := hd
    by_cases ha : a = k
    · subst ha; simp [lookupA] at h
    · simp [lookupA, ha] at h
      simp [setA, ha, ih h]

theorem nodup_keys_setA {α : Type} (l : List (String × α)) (k : String) (v : α)
    (h : (l.map Prod.fst).Nodup) : ((setA l k v).map Prod.fst).Nodup := by
  by_cases hk : k ∈ l.map Prod.fst
  · rw [keys_setA_of_mem l k v hk]; exact h
  · rw [setA_eq_append_of_none v (lookupA_eq_none_iff.mpr hk)]
    simp [List.nodup_append, h, hk]

theorem setA_setA {α : Type} (l : List (String × α)) (k : String) (v w : α) :
    setA (setA l k v) k w = setA l k w := by
  induction l with
  | nil => simp [setA]
  | cons hd t ih =>
    obtain ⟨a, b⟩ := hd
    by_cases ha : a = k
    · subst ha; simp [setA]
    · simp [setA, ha, ih]

theorem sum_setA (l : List (String × Nat)) (k : String) (v w : Nat)
    (hnd : (l.map Prod.fst).Nodup) (h : lookupA l k = some v) :
    ((setA l k w).map Prod.snd).sum + v = (l.map Prod.snd).sum + w := by
  induction l with
  | nil => simp [lookupA] at h
  | cons hd t ih =>
    obtain ⟨a, b⟩ := hd
    simp only [List.map_cons, List.nodup_cons] at hnd
    by_cases ha : a = k
    · subst ha
      simp only [lookupA, if_pos] at h
      have hbv : b = v := by injection h
      subst hbv
      simp [setA]
      omega
    · simp only [lookupA, if_neg ha] at h
      simp only [setA, if_neg ha, List.map_cons, List.sum_cons]
      have := ih hnd.2 h
      omega

theorem lookupA_mapSnd {α β : Type} (f : α → β) (l : List (String × α)) (k : String) :
    lookupA (l.map (fun p => (p.1, f p.2))) k = (lookupA l k).map f := by
  induction l with
  | nil => simp [lookupA]
  | cons hd t ih =>
    obtain ⟨a, b⟩ := hd
    by_cases ha : a = k
    · subst ha; simp [lookupA]
    · simp [lookupA, ha, ih]

theorem keys_mapSnd {α β : Type} (f : α → β) (l : List (String × α)) :
    (l.map (fun p => (p.1, f p.2))).map Prod.fst = l.map Prod.fst := by
  induction l with
  | nil => rfl
  | cons hd t ih => simp [ih]

theorem find?_eq_of_count_one {α : Type} [DecidableEq α] (l : List (String × α))
    (k : String) (v : α)
    (hc : (l.map Prod.snd).count v = 1) (hmem : (k, v) ∈ l) :
    l.find? (fun p => p.2 == v) = some (k, v) := by
  induction l with
  | nil => simp at hmem
  | cons hd t ih =>
    obtain ⟨a, b⟩ := hd
    by_cases hb : b = v
    · subst hb
      simp only [List.map_cons, List.count_cons_self] at hc
      have hzero : (t.map Prod.snd).count b = 0 := by omega
      have hnt : (k, b) ∉ t := by
        intro hmem'
        have : b ∈ t.map Prod.snd := List.mem_map.mpr ⟨(k, b), hmem', rfl⟩
        rw [List.count_eq_zero] at hzero
        exact hzero this
      rcases List.mem_cons.mp hmem with heq | hmem'
      · cases heq
        simp [List.find?]
      · exact absurd hmem' hnt
    · have hcount : (t.map Prod.snd).count v = 1 := by
        simpa [List.count_cons, hb] using hc
      have hmem' : (k, v) ∈ t := by
        rcases List.mem_cons.mp hmem with heq | hmem'
        · cases heq; exact absurd rfl hb
        · exact hmem'
      rw [List.find?_cons_of_neg]
      · exact ih hcount hmem'
      · simp [hb]

theorem lookupA_append_left_none {α : Type} {l₁ l₂ : List (String × α)} {k : String}
    (h : lookupA l₁ k = none) : lookupA (l₁ ++ l₂) k = lookupA l₂ k := by
  induction l₁ with
  | nil => simp
  | cons hd t ih =>
    obtain ⟨a, b⟩ := hd
    by_cases ha : a = k
    · subst ha; simp [lookupA] at h
    · simp [lookupA, ha] at h ⊢
      exact ih h

theorem foldl_setA_fresh {α : Type} (l acc : List (String × α))
    (hnd : (l.map Prod.fst).Nodup)
    (hfresh : ∀ k, k ∈ l.map Prod.fst → lookupA acc k = none) :
    l.foldl (fun acc p => setA acc p.1 p.2) acc = acc ++ l := by
  induction l generalizing acc with
  | nil => simp
  | cons hd t ih =>
    obtain ⟨a, b⟩ := hd
    simp only [List.map_cons, List.nodup_cons] at hnd
    have hacc : lookupA acc a = none := hfresh a (by simp)
    simp only [List.foldl_cons]
    rw [setA_eq_append_of_none b hacc]
    rw [ih (acc ++ [(a, b)]) hnd.2]
    · simp
    · intro k hk
      have hka : k ≠ a := by
        intro hh
        subst hh
        exact hnd.1 hk
      rw [lookupA_append_left_none (hfresh k (by simp [hk]))]
      simp [lookupA, hka, Ne.symm hka]

theorem updateTotals_lookup_preserved (sc : List (String × Nat)) (ps : List (String × Player))
    (lb : List (String × Nat)) (q : String) (pl : Player)
    (h : lookupA ps q = some pl) :
    ∃ pl', lookupA (updateTotals ps lb sc).1 q = some pl' := by
  induction sc generalizing ps lb pl with
  | nil => exact ⟨pl, h⟩
  | cons hd rest ih =>
    obtain ⟨pid, pts⟩ := hd
    cases hp : lookupA ps pid with
    | none =>
      simp only [updateTotals, hp]
      exact ⟨pl, h⟩
    | some pl0 =>
      simp only [updateTotals, hp]
      by_cases hq : q = pid
      · subst hq
        exact ih _ _ _ (lookupA_setA_self ps q _)
      · refine ih _ _ pl ?_
        rw [lookupA_setA_ne _ _ _ _ hq]
        exact h

theorem updateTotals_completes (sc : List (String × Nat)) (ps : List (String × Player))
    (lb : List (String × Nat))
    (h : ∀ pid, pid ∈ sc.map Prod.fst → ∃ pl, lookupA ps pid = some pl) :
    (updateTotals ps lb sc).2.2 = true := by
  induction sc generalizing ps lb with
  | nil => rfl
  | cons hd rest ih =>
    obtain ⟨pid, pts⟩ := hd
    obtain ⟨pl, hpl⟩ := h pid (by simp)
    simp only [updateTotals, hpl]
    apply ih
    intro q hq
    by_cases hqp : q = pid
    · subst hqp
      exact ⟨_, lookupA_setA_self ..⟩
    · rw [lookupA_setA_ne _ _ _ _ hqp]
      exact h q (by simp [hq])

theorem updateTotals_spec (sc : List (String × Nat)) (ps ps' : List (String × Player))
    (lb lb' : List (String × Nat))
    (hnd : (sc.map Prod.fst).Nodup)
    (h : updateTotals ps lb sc = (ps', lb', true)) :
    (∀ pid pts, lookupA sc pid = some pts →
       ∃ pl, lookupA ps pid = some pl ∧
         lookupA ps' pid = some { pl with totalScore := pl.totalScore + pts } ∧
         lookupA lb' pid = some ((lookupA lb pid).getD 0 + pts)) ∧
    (∀ q, lookupA sc q = none →
       lookupA ps' q = lookupA ps q ∧ lookupA lb' q = lookupA lb q) := by
  induction sc generalizing ps lb with
  | nil =>
    simp only [updateTotals, Prod.mk.injEq] at h
    obtain ⟨h1, h2, _⟩ := h
    subst h1
    subst h2
    constructor
    · intro pid pts hpid
      simp [lookupA] at hpid
    · intro q _
      exact ⟨rfl, rfl⟩
  | cons hd rest ih =>
    obtain ⟨pid, pts⟩ := hd
    simp only [List.map_cons, List.nodup_cons] at hnd
    cases hp : lookupA ps pid with
    | none =>
      simp only [updateTotals, hp, Prod.mk.injEq] at h
      exact absurd h.2.2 (by simp)
    | some pl =>
      simp only [updateTotals, hp] at h
      have ihs := ih _ _ hnd.2 h
      constructor
      · intro q qpts hq
        by_cases hqp : q = pid
        · subst hqp
          obtain rfl : pts = qpts := by simpa [lookupA] using hq
          have hnone : lookupA rest q = none := lookupA_eq_none_iff.mpr hnd.1
          have hpres := ihs.2 q hnone
          refine ⟨pl, hp, ?_, ?_⟩
          · rw [hpres.1, lookupA_setA_self]
          · rw [hpres.2, lookupA_setA_self]
        · have hpq : pid ≠ q := fun hh => hqp hh.symm
          have hq' : lookupA rest q = some qpts := by
            simpa [lookupA, hpq] using hq
          obtain ⟨pl1, hpl1, hps', hlb'⟩ := ihs.1 q qpts hq'
          rw [lookupA_setA_ne _ _ _ _ hqp] at hpl1
          rw [lookupA_setA_ne _ _ _ _ hqp] at hlb'
          exact ⟨pl1, hpl1, hps', hlb'⟩
      · intro q hq
        have hqp : q ≠ pid := by
          intro hh
          subst hh
          simp [lookupA] at hq
        have hpq : pid ≠ q := fun hh => hqp hh.symm
        have hrest : lookupA rest q = none := by
          simpa [lookupA, hpq] using hq
        have hpres := ihs.2 q hrest
        constructor
        · rw [hpres.1, lookupA_setA_ne _ _ _ _ hqp]
        · rw [hpres.2, lookupA_setA_ne _ _ _ _ hqp]

theorem get_result_fst (st : ServerState) (roomId : String) :
    (get_result st roomId).1 = st := by
  unfold get_result
  cases lookupA st.rooms roomId with
  | none => rfl
  | some room =>
    dsimp only
    by_cases hs : room.status ≠ Status.finished
    · rw [if_pos hs]
    · rw [if_neg hs]

theorem commit_ok (st : ServerState) (roomId mid tid : String) (room : Room)
    (round_scores : List (String × Nat)) (msg msg' : String) (scores : List (String × Nat))
    (hok : (commit st roomId mid tid room round_scores msg).2 = Except.ok (msg', scores)) :
    msg' = msg ∧ scores = round_scores ∧
    ∃ ps2 lb2, updateTotals st.players room.leaderboard round_scores = (ps2, lb2, true) ∧
      commit st roomId mid tid room round_scores msg =
        ({ rooms := setA st.rooms roomId
             ({ room with guess := some (mid, tid), scores := some round_scores,
                          status := Status.finished, leaderboard := lb2 }),
           players := ps2 }, Except.ok (msg, round_scores)) := by
  unfold commit at hok ⊢
  rcases hr : updateTotals st.players room.leaderboard round_scores with ⟨ps2, lb2, flag⟩
  dsimp only at hok ⊢
  rw [hr] at hok ⊢
  dsimp only at hok ⊢
  cases flag with
  | false => simp at hok
  | true =>
    rw [if_pos rfl] at hok ⊢
    dsimp only at hok
    have hinj := Except.ok.inj hok
    have hmsg : msg = msg' := congrArg Prod.fst hinj
    have hsc : round_scores = scores := congrArg Prod.snd hinj
    refine ⟨hmsg.symm, hsc.symm, ps2, lb2, rfl, ?_⟩
    rw [setA_setA]

theorem mantri_guess_ok_spec (st : ServerState) (roomId mid tid : String)
    (room : Room) (rs : List (String × Role)) (msg : String) (scores : List (String × Nat))
    (hroom : lookupA st.rooms roomId = some room)
    (hroles : room.roles = some rs)
    (hok : (mantri_guess st roomId mid tid).2 = Except.ok (msg, scores)) :
    ∃ cp ps2 lb2,
      rs.find? (fun p => p.2 == Role.Chor) = some cp ∧
      cp.2 = Role.Chor ∧
      rs ≠ [] ∧ mid ∈ room.players ∧ tid ∈ room.players ∧
      room.mantriId = some mid ∧ room.status ≠ Status.finished ∧
      (tid = cp.1 →
        scores = rs.map (fun p => (p.1, BASE_POINTS p.2)) ∧
        msg = "Mantri guessed correctly. No points transfer.") ∧
      (tid ≠ cp.1 →
        ∃ cur, lookupA (rs.map (fun p => (p.1, BASE_POINTS p.2))) cp.1 = some cur ∧
          scores = setA (setA (rs.map (fun p => (p.1, BASE_POINTS p.2))) cp.1
            (cur + BASE_POINTS Role.Mantri)) mid 0 ∧
          msg = "Mantri guessed incorrectly. Chor stole Mantri\x27s points.") ∧
      updateTotals st.players room.leaderboard scores = (ps2, lb2, true) ∧
      mantri_guess st roomId mid tid =
        ({ rooms := setA st.rooms roomId
             ({ room with guess := some (mid, tid), scores := some scores,
                          status := Status.finished, leaderboard := lb2 }),
           players := ps2 }, Except.ok (msg, scores)) := by
  unfold mantri_guess at hok
  rw [hroom] at hok
  dsimp only at hok
  rw [hroles] at hok
  dsimp only at hok
  by_cases h1 : rs = []
  · rw [if_pos h1] at hok
    simp at hok
  rw [if_neg h1] at hok
  by_cases h2 : mid ∉ room.players ∨ tid ∉ room.players
  · rw [if_pos h2] at hok
    simp at hok
  rw [if_neg h2] at hok
  by_cases h3 : room.mantriId ≠ some mid
  · rw [if_pos h3] at hok
    simp at hok
  rw [if_neg h3] at hok
  by_cases h4 : room.status = Status.finished
  · rw [if_pos h4] at hok
    simp at hok
  rw [if_neg h4] at hok
  have hmem := h2
  push_neg at hmem
  cases hfind : rs.find? (fun p => p.2 == Role.Chor) with
  | none =>
    rw [hfind] at hok
    simp at hok
  | some cp =>
    rw [hfind] at hok
    dsimp only at hok
    have hcp : cp.2 = Role.Chor := by
      have := List.find?_some hfind
      simpa using this
    by_cases h5 : tid = cp.1
    · rw [if_pos h5] at hok
      have hstate : mantri_guess st roomId mid tid =
          commit st roomId mid tid room (rs.map (fun p => (p.1, BASE_POINTS p.2)))
            "Mantri guessed correctly. No points transfer." := by
        unfold mantri_guess
        rw [hroom]
        dsimp only
        rw [hroles]
        dsimp only
        rw [if_neg h1, if_neg h2, if_neg h3, if_neg h4, hfind]
        dsimp only
        rw [if_pos h5]
      obtain ⟨hmsg, hsc, ps2, lb2, hupd, hco⟩ :=
        commit_ok st roomId mid tid room _ _ msg scores hok
      subst hmsg
      subst hsc
      refine ⟨cp, ps2, lb2, rfl, hcp, h1, hmem.1, hmem.2, not_not.mp h3, h4,
        fun _ => ⟨rfl, rfl⟩, fun hcon => absurd h5 hcon, hupd, ?_⟩
      rw [hstate, hco]
    · rw [if_neg h5] at hok
      cases hcur : lookupA (rs.map (fun p => (p.1, BASE_POINTS p.2))) cp.1 with
      | none =>
        rw [hcur] at hok
        simp at hok
      | some cur =>
        rw [hcur] at hok
        dsimp only at hok
        have hstate : mantri_guess st roomId mid tid =
            commit st roomId mid tid room
              (setA (setA (rs.map (fun p => (p.1, BASE_POINTS p.2))) cp.1
                (cur + BASE_POINTS Role.Mantri)) mid 0)
              "Mantri guessed incorrectly. Chor stole Mantri\x27s points." := by
          unfold mantri_guess
          rw [hroom]
          dsimp only
          rw [hroles]
          dsimp only
          rw [if_neg h1, if_neg h2, if_neg h3, if_neg h4, hfind]
          dsimp only
          rw [if_neg h5, hcur]
        obtain ⟨hmsg, hsc, ps2, lb2, hupd, hco⟩ :=
          commit_ok st roomId mid tid room _ _ msg scores hok
        subst hmsg
        subst hsc
        refine ⟨cp, ps2, lb2, rfl, hcp, h1, hmem.1, hmem.2, not_not.mp h3, h4,
          fun hcon => absurd hcon h5, fun _ => ⟨cur, hcur, rfl, rfl⟩, hupd, ?_⟩
        rw [hstate, hco]

theorem mantri_guess_finished_fails (st : ServerState) (roomId mid tid : String) (room : Room)
    (hroom : lookupA st.rooms roomId = some room)
    (hfin : room.status = Status.finished) :
    (mantri_guess st roomId mid tid).1 = st ∧
    (∃ e, (mantri_guess st roomId mid tid).2 = Except.error (Failure.http e)) ∧
    (∀ rs, room.roles = some rs → rs ≠ [] → mid ∈ room.players → tid ∈ room.players →
      room.mantriId = some mid →
      (mantri_guess st roomId mid tid).2 =
        Except.error (Failure.http ⟨400, "Round already finished"⟩)) := by
  obtain ⟨hst, herr⟩ : (mantri_guess st roomId mid tid).1 = st ∧
      ∃ e, (mantri_guess st roomId mid tid).2 = Except.error (Failure.http e) := by
    unfold mantri_guess
    rw [hroom]
    dsimp only
    cases room.roles with
    | none => exact ⟨rfl, ⟨400, "Roles not assigned yet"⟩, rfl⟩
    | some rs =>
      dsimp only
      by_cases h1 : rs = []
      · rw [if_pos h1]
        exact ⟨rfl, ⟨400, "Roles not assigned yet"⟩, rfl⟩
      rw [if_neg h1]
      by_cases h2 : mid ∉ room.players ∨ tid ∉ room.players
      · rw [if_pos h2]
        exact ⟨rfl, ⟨404, "Invalid player id(s)"⟩, rfl⟩
      rw [if_neg h2]
      by_cases h3 : room.mantriId ≠ some mid
      · rw [if_pos h3]
        exact ⟨rfl, ⟨403, "Only the Mantri can submit a guess"⟩, rfl⟩
      rw [if_neg h3, if_pos hfin]
      exact ⟨rfl, ⟨400, "Round already finished"⟩, rfl⟩
  refine ⟨hst, herr, ?_⟩
  intro rs hrs hne hmidmem htidmem hmantri
  have h2' : ¬(mid ∉ room.players ∨ tid ∉ room.players) := by
    rintro (h | h)
    · exact h hmidmem
    · exact h htidmem
  have h3' : ¬(room.mantriId ≠ some mid) := fun hh => hh hmantri
  unfold mantri_guess
  rw [hroom]
  dsimp only
  rw [hrs]
  dsimp only
  rw [if_neg hne, if_neg h2', if_neg h3', if_pos hfin]

theorem lookup_preserved_setA {α : Type} (l : List (String × α)) (k q : String) (v w : α)
    (h : lookupA l q = some w) : ∃ w', lookupA (setA l k v) q = some w' := by
  by_cases hq : q = k
  · subst hq
    exact ⟨v, lookupA_setA_self l q v⟩
  · rw [lookupA_setA_ne _ _ _ _ hq]
    exact ⟨w, h⟩

theorem namesOf_total (ps : List (String × Player)) (l : List String)
    (h : ∀ pid, pid ∈ l → ∃ pl, lookupA ps pid = some pl) :
    ∃ out, namesOf ps l = some out := by
  induction l with
  | nil => exact ⟨[], rfl⟩
  | cons hd t ih =>
    obtain ⟨pl, hpl⟩ := h hd (by simp)
    obtain ⟨out, hout⟩ := ih (fun pid hp => h pid (by simp [hp]))
    exact ⟨(hd, pl.name) :: out, by simp [namesOf, hpl, hout]⟩

theorem RoomOK_mono (st st' : ServerState) (room : Room)
    (hkeys : ∀ q pl, lookupA st.players q = some pl →
      ∃ pl', lookupA st'.players q = some pl')
    (h : RoomOK st room) : RoomOK st' room := by
  obtain ⟨hnd, hmem, hroles⟩ := h
  refine ⟨hnd, ?_, hroles⟩
  intro pid hp
  obtain ⟨pl, hpl⟩ := hmem pid hp
  exact hkeys pid pl hpl

theorem values_mapSnd {α β : Type} (f : α → β) (l : List (String × α)) :
    (l.map (fun p => (p.1, f p.2))).map Prod.snd = (l.map Prod.snd).map f := by
  induction l with
  | nil => rfl
  | cons hd t ih => simp [ih]

/-- Concrete player table used by the test states below. -/
def playersW : List (String × Player) :=
  [("p1", { name := "a", roomId := "r", totalScore := 0 }),
   ("p2", { name := "b", roomId := "r", totalScore := 0 }),
   ("p3", { name := "c", roomId := "r", totalScore := 0 }),
   ("p4", { name := "d", roomId := "r", totalScore := 0 })]

/-- Concrete role map: p1 Raja, p2 Mantri, p3 Chor, p4 Sipahi. -/
def rsW : List (String × Role) :=
  [("p1", .Raja), ("p2", .Mantri), ("p3", .Chor), ("p4", .Sipahi)]

/-- Concrete room whose roles are already assigned (accuser p2). -/
def roomW : Room :=
  { players := ["p1", "p2", "p3", "p4"], status := .waiting,
    roles := some rsW, mantriId := some "p2" }

/-- Concrete state holding the assigned room `roomW` under id "r". -/
def stW : ServerState := { rooms := [("r", roomW)], players := playersW }

/-- Concrete 4-player room with no roles assigned yet. -/
def roomW0 : Room := { players := ["p1", "p2", "p3", "p4"], status := .waiting }

/-- Concrete state holding the unassigned room `roomW0` under id "r". -/
def stW0 : ServerState := { rooms := [("r", roomW0)], players := playersW }

/-- Concrete two-player waiting room state for join tests. -/
def stJ : ServerState :=
  { rooms := [("r", { players := ["p1", "p2"], status := .waiting })],
    players := [("p1", { name := "a", roomId := "r", totalScore := 0 }),
                ("p2", { name := "b", roomId := "r", totalScore := 0 })] }

/-- C1: the claim says a second `assignRoles` call on an already-assigned room
always fails with InvalidState and leaves the stored role map and accuser id
unchanged.  The code checks only room existence and roster size, so on the
already-assigned four-player room `roomW` a second call succeeds (`ok true`)
and overwrites both the role map and the recorded accuser with a fresh
shuffle: the claim describes intended behavior the code does not implement. -/
theorem C1_second_assign_succeeds_and_overwrites :
    (assign_roles stW "r" [.Mantri, .Raja, .Sipahi, .Chor]).2 = Except.ok true ∧
    lookupA (assign_roles stW "r" [.Mantri, .Raja, .Sipahi, .Chor]).1.rooms "r" =
      some { players := ["p1", "p2", "p3", "p4"], status := .waiting,
             roles := some [("p1", .Mantri), ("p2", .Raja), ("p3", .Sipahi), ("p4", .Chor)],
             mantriId := some "p1" } ∧
    some [("p1", Role.Mantri), ("p2", Role.Raja), ("p3", Role.Sipahi), ("p4", Role.Chor)] ≠
      roomW.roles := by
  decide

/-- C2: the claim says a successful `assignRoles` transitions the room status
from `waiting` to `assigned`.  The code never writes any status in
`assign_roles`: on the four-player waiting room `roomW0` the call succeeds
but the status is still `waiting` (which is not `assigned`), and it stays so
until `mantri_guess` writes `finished` — the state machine in the code goes
directly from `waiting` to `finished`. -/
theorem C2_assign_leaves_status_waiting :
    (assign_roles stW0 "r" [.Raja, .Mantri, .Chor, .Sipahi]).2 = Except.ok true ∧
    (lookupA (assign_roles stW0 "r" [.Raja, .Mantri, .Chor, .Sipahi]).1.rooms "r").map
      Room.status = some Status.waiting ∧
    Status.waiting ≠ Status.assigned := by
  decide

/-- C4: the claim says `getRole` never raises a hard failure and reports
"not found" as data even when roles have not been assigned at all.  On the
existing room `roomW0`, whose roles are not yet assigned, the code indexes
`rooms[roomId]["roles"]` and raises `KeyError` (a 500 hard failure, modelled
as `Failure.crash`); only the unknown-room case returns the soft error
payload as claimed. -/
theorem C4_get_my_role_hard_fails_without_roles :
    (get_my_role stW0 "r" "p1").2 = Except.error Failure.crash ∧
    get_my_role stW0 "zz" "p1" =
      (stW0, Except.ok (RolePayload.errorPayload "Room not found")) := by
  decide

/-- C5 counterexample: the claim says that after one successful `submitGuess`,
any later `submitGuess` call on the room fails with InvalidState.  After a
successful first guess on `stW`, a later call naming the unknown player "zz"
fails with the NotFound error 404 "Invalid player id(s)" — not with the
InvalidState error 400 "Round already finished" — so the claim as stated is
false (the state is still preserved, which the amended claim keeps). -/
theorem C5_counterexample :
    (mantri_guess stW "r" "p2" "p1").2 =
      Except.ok ("Mantri guessed incorrectly. Chor stole Mantri\x27s points.",
        [("p1", 1000), ("p2", 0), ("p3", 800), ("p4", 500)]) ∧
    (mantri_guess (mantri_guess stW "r" "p2" "p1").1 "r" "p2" "zz").2 =
      Except.error (Failure.http ⟨404, "Invalid player id(s)"⟩) ∧
    Failure.http ⟨404, "Invalid player id(s)"⟩ ≠
      Failure.http ⟨400, "Round already finished"⟩ := by
  decide

/-- C5 (amended): after one successful submitGuess on a room, every later
submitGuess call on that room fails with a raised HTTPException and leaves
the state exactly as the first call left it (guess record, round scores,
leaderboard and cumulative totals included); when the later call passes two
roster members and the recorded accuser id, the failure is specifically the
InvalidState error 400 "Round already finished".  (Later calls that fail the
earlier reference checks fail with their NotFound/Forbidden errors instead,
which is what the counterexample exhibits.) -/
theorem C5_second_guess_always_fails (st st1 : ServerState) (roomId mid tid : String)
    (room : Room) (rs : List (String × Role)) (msg : String) (scores : List (String × Nat))
    (hroom : lookupA st.rooms roomId = some room)
    (hroles : room.roles = some rs)
    (hfirst : mantri_guess st roomId mid tid = (st1, Except.ok (msg, scores))) :
    ∀ mid' tid',
      (mantri_guess st1 roomId mid' tid').1 = st1 ∧
      (∃ e, (mantri_guess st1 roomId mid' tid').2 = Except.error (Failure.http e)) ∧
      (mid' ∈ room.players → tid' ∈ room.players → mid' = mid →
        (mantri_guess st1 roomId mid' tid').2 =
          Except.error (Failure.http ⟨400, "Round already finished"⟩)) := by
  have hok : (mantri_guess st roomId mid tid).2 = Except.ok (msg, scores) := by
    rw [hfirst]
  obtain ⟨cp, ps2, lb2, hfind, hcp, hne, hmidmem, htidmem, hacc, hnfin,
      hcor, hinc, hupd, hstate⟩ :=
    mantri_guess_ok_spec st roomId mid tid room rs msg scores hroom hroles hok
  rw [hfirst] at hstate
  have hst1 := congrArg Prod.fst hstate
  dsimp only at hst1
  obtain ⟨room2, hr2, hfin2, hroles2, hplayers2, hmantri2⟩ :
      ∃ room2, lookupA st1.rooms roomId = some room2 ∧ room2.status = Status.finished ∧
        room2.roles = room.roles ∧ room2.players = room.players ∧
        room2.mantriId = room.mantriId := by
    rw [hst1]
    exact ⟨_, lookupA_setA_self .., rfl, rfl, rfl, rfl⟩
  intro mid' tid'
  have hff := mantri_guess_finished_fails st1 roomId mid' tid' room2 hr2 hfin2
  refine ⟨hff.1, hff.2.1, ?_⟩
  intro hm ht heq
  subst heq
  refine hff.2.2 rs (by rw [hroles2]; exact hroles) hne ?_ ?_
    (by rw [hmantri2]; exact hacc)
  · rw [hplayers2]; exact hm
  · rw [hplayers2]; exact ht

/-- C5 witness: on the concrete state `stW`, after the Mantri's successful
(correct) first guess, replaying the same valid guess fails with the 400
"Round already finished" error and the state is untouched. -/
theorem C5_second_guess_always_fails_witness :
    (mantri_guess (mantri_guess stW "r" "p2" "p3").1 "r" "p2" "p3").2 =
      Except.error (Failure.http ⟨400, "Round already finished"⟩) ∧
    (mantri_guess (mantri_guess stW "r" "p2" "p3").1 "r" "p2" "p3").1 =
      (mantri_guess stW "r" "p2" "p3").1 := by
  have h := C5_second_guess_always_fails stW (mantri_guess stW "r" "p2" "p3").1
    "r" "p2" "p3" roomW rsW "Mantri guessed correctly. No points transfer."
    [("p1", 1000), ("p2", 800), ("p3", 0), ("p4", 500)]
    (by decide) (by decide) (by decide) "p2" "p3"
  exact ⟨h.2.2 (by decide) (by decide) rfl, h.1⟩

/-- C3: on a room with assigned roles (role keys duplicate-free, role values a
permutation of the four roles), a successful submitGuess gives every player
the base points of their role; when the target is the true Chor the base
scores stand and the message is the "correct" one, otherwise the true Chor
additionally gains the Mantri base value 800 (0 + 800 = 800), the accuser is
reduced to 0, every other player keeps their base points, and the message is
the "incorrect" one. -/
theorem C3_round_scoring (st : ServerState) (roomId mid tid : String)
    (room : Room) (rs : List (String × Role)) (msg : String)
    (scores : List (String × Nat)) (chor : String)
    (hroom : lookupA st.rooms roomId = some room)
    (hroles : room.roles = some rs)
    (hnodup : (rs.map Prod.fst).Nodup)
    (hvals : (rs.map Prod.snd).Perm ROLES)
    (hchor : lookupA rs chor = some Role.Chor)
    (hmid : lookupA rs mid = some Role.Mantri)
    (hok : (mantri_guess st roomId mid tid).2 = Except.ok (msg, scores)) :
    (tid = chor →
      (∀ p r, lookupA rs p = some r → lookupA scores p = some (BASE_POINTS r)) ∧
      msg = "Mantri guessed correctly. No points transfer.") ∧
    (tid ≠ chor →
      lookupA scores chor = some 800 ∧
      lookupA scores mid = some 0 ∧
      (∀ p r, lookupA rs p = some r → p ≠ chor → p ≠ mid →
        lookupA scores p = some (BASE_POINTS r)) ∧
      msg = "Mantri guessed incorrectly. Chor stole Mantri\x27s points.") := by
  obtain ⟨cp, ps2, lb2, hfind, hcp, hne, hmidmem, htidmem, hacc, hnfin,
      hcor, hinc, hupd, hstate⟩ :=
    mantri_guess_ok_spec st roomId mid tid room rs msg scores hroom hroles hok
  have hcount : (rs.map Prod.snd).count Role.Chor = 1 := by
    rw [hvals.count_eq]
    decide
  have hfind' : rs.find? (fun p => p.2 == Role.Chor) = some (chor, Role.Chor) :=
    find?_eq_of_count_one rs chor Role.Chor hcount (lookupA_mem hchor)
  have hcpeq : cp = (chor, Role.Chor) := Option.some.inj (hfind.symm.trans hfind')
  have hcp1 : cp.1 = chor := by rw [hcpeq]
  constructor
  · intro htc
    have h5 : tid = cp.1 := by rw [hcp1]; exact htc
    obtain ⟨hsc, hmsg⟩ := hcor h5
    subst hsc
    refine ⟨?_, hmsg⟩
    intro p r hp
    rw [lookupA_mapSnd BASE_POINTS rs p, hp]
    rfl
  · intro htc
    have h5 : tid ≠ cp.1 := by rw [hcp1]; exact htc
    obtain ⟨cur, hcur, hsc, hmsg⟩ := hinc h5
    subst hsc
    have hcur0 : cur = 0 := by
      rw [lookupA_mapSnd BASE_POINTS rs, hcp1, hchor] at hcur
      simp [BASE_POINTS] at hcur
      omega
    have hcm : chor ≠ mid := by
      intro hh
      rw [hh, hmid] at hchor
      exact absurd (Option.some.inj hchor) (by decide)
    refine ⟨?_, lookupA_setA_self .., ?_, hmsg⟩
    · rw [lookupA_setA_ne _ _ _ _ hcm, hcp1, lookupA_setA_self]
      simp [hcur0, BASE_POINTS]
    · intro p r hp hpchor hpmid
      have hpcp : p ≠ cp.1 := by rw [hcp1]; exact hpchor
      rw [lookupA_setA_ne _ _ _ _ hpmid, lookupA_setA_ne _ _ _ _ hpcp,
        lookupA_mapSnd BASE_POINTS rs p, hp]
      rfl

/-- C3 witness: on the concrete incorrect guess (p2 accuses p1 while p3 is
the Chor), the round scores are p1 1000, p2 0, p3 800, p4 500. -/
theorem C3_round_scoring_witness :
    lookupA [("p1", (1000 : Nat)), ("p2", 0), ("p3", 800), ("p4", 500)] "p3" = some 800 ∧
    lookupA [("p1", (1000 : Nat)), ("p2", 0), ("p3", 800), ("p4", 500)] "p2" = some 0 := by
  have h := C3_round_scoring stW "r" "p2" "p1" roomW rsW
    "Mantri guessed incorrectly. Chor stole Mantri\x27s points."
    [("p1", 1000), ("p2", 0), ("p3", 800), ("p4", 500)] "p3"
    (by decide) (by decide) (by decide) (by decide) (by decide) (by decide) (by decide)
  have h2 := h.2 (by decide)
  exact ⟨h2.1, h2.2.1⟩

/-- C6: for every successful submitGuess on a room with properly assigned
roles, the four round scores sum to 2300 = 1000 + 800 + 500 + 0, both for a
correct guess (base scores) and for an incorrect one (the 800-point steal
moves from the accuser to the Chor, conserving the total). -/
theorem C6_round_scores_sum (st : ServerState) (roomId mid tid : String)
    (room : Room) (rs : List (String × Role)) (msg : String) (scores : List (String × Nat))
    (hroom : lookupA st.rooms roomId = some room)
    (hroles : room.roles = some rs)
    (hnodup : (rs.map Prod.fst).Nodup)
    (hvals : (rs.map Prod.snd).Perm ROLES)
    (hmid : lookupA rs mid = some Role.Mantri)
    (hok : (mantri_guess st roomId mid tid).2 = Except.ok (msg, scores)) :
    (scores.map Prod.snd).sum = 2300 := by
  obtain ⟨cp, ps2, lb2, hfind, hcp, hne, hmidmem, htidmem, hacc, hnfin,
      hcor, hinc, hupd, hstate⟩ :=
    mantri_guess_ok_spec st roomId mid tid room rs msg scores hroom hroles hok
  have hbase_sum : ((rs.map (fun p => (p.1, BASE_POINTS p.2))).map Prod.snd).sum = 2300 := by
    rw [values_mapSnd, List.Perm.sum_eq (hvals.map BASE_POINTS)]
    decide
  by_cases h5 : tid = cp.1
  · obtain ⟨hsc, _⟩ := hcor h5
    subst hsc
    exact hbase_sum
  · obtain ⟨cur, hcur, hsc, _⟩ := hinc h5
    subst hsc
    have hkb : ((rs.map (fun p => (p.1, BASE_POINTS p.2))).map Prod.fst).Nodup := by
      rw [keys_mapSnd]
      exact hnodup
    have hmemcp : cp ∈ rs := List.mem_of_find?_eq_some hfind
    have hchor_lookup : lookupA rs cp.1 = some Role.Chor := by
      have hmem2 : (cp.1, Role.Chor) ∈ rs := by
        rw [← hcp]
        exact hmemcp
      exact lookupA_eq_of_mem_nodup hmem2 hnodup
    have hmid_ne : mid ≠ cp.1 := by
      intro hh
      rw [hh, hchor_lookup] at hmid
      exact absurd (Option.some.inj hmid) (by decide)
    have hcur0 : cur = 0 := by
      rw [lookupA_mapSnd BASE_POINTS rs, hchor_lookup] at hcur
      simp [BASE_POINTS] at hcur
      omega
    have hlb : lookupA (rs.map (fun p => (p.1, BASE_POINTS p.2))) cp.1 = some 0 := by
      rw [lookupA_mapSnd BASE_POINTS rs, hchor_lookup]
      simp [BASE_POINTS]
    have hsum1 := sum_setA (rs.map (fun p => (p.1, BASE_POINTS p.2))) cp.1 0
      (cur + BASE_POINTS Role.Mantri) hkb hlb
    have hk1 : (((setA (rs.map (fun p => (p.1, BASE_POINTS p.2))) cp.1
        (cur + BASE_POINTS Role.Mantri)).map Prod.fst)).Nodup :=
      nodup_keys_setA _ _ _ hkb
    have hl1 : lookupA (setA (rs.map (fun p => (p.1, BASE_POINTS p.2))) cp.1
        (cur + BASE_POINTS Role.Mantri)) mid = some 800 := by
      rw [lookupA_setA_ne _ _ _ _ hmid_ne, lookupA_mapSnd BASE_POINTS rs, hmid]
      simp [BASE_POINTS]
    have hsum2 := sum_setA _ mid 800 0 hk1 hl1
    have hBM : BASE_POINTS Role.Mantri = 800 := rfl
    rw [hBM] at hsum1 hsum2 ⊢
    rw [hcur0] at hsum1 hsum2 ⊢
    rw [hbase_sum] at hsum1
    omega

/-- C6 witness: the concrete incorrect guess yields round scores
1000 + 0 + 800 + 500 = 2300. -/
theorem C6_round_scores_sum_witness :
    (mantri_guess stW "r" "p2" "p1").2 =
      Except.ok ("Mantri guessed incorrectly. Chor stole Mantri\x27s points.",
        [("p1", 1000), ("p2", 0), ("p3", 800), ("p4", 500)]) ∧
    (([("p1", (1000 : Nat)), ("p2", 0), ("p3", 800), ("p4", 500)]).map Prod.snd).sum = 2300 := by
  refine ⟨by decide, ?_⟩
  exact C6_round_scores_sum stW "r" "p2" "p1" roomW rsW
    "Mantri guessed incorrectly. Chor stole Mantri\x27s points."
    [("p1", 1000), ("p2", 0), ("p3", 800), ("p4", 500)]
    (by decide) (by decide) (by decide) (by decide) (by decide) (by decide)

/-- C7: join fails with NotFound (404) on an unknown room, with InvalidState
(400, wrong status) when the room is not waiting, and with Full (400, room
full) when the waiting room already has 4 players; every failure leaves the
whole state unchanged, and a success appends exactly one new player with
score 0 to the roster and one fresh entry to the player table, touching
nothing else. -/
theorem C7_join_contract (st : ServerState) (roomId name pid : String) :
    (lookupA st.rooms roomId = none →
      join_room st roomId name pid =
        (st, Except.error (Failure.http ⟨404, "Room not found"⟩))) ∧
    (∀ room, lookupA st.rooms roomId = some room →
      (room.status ≠ Status.waiting →
        join_room st roomId name pid =
          (st, Except.error (Failure.http ⟨400, "Room not accepting joins right now"⟩))) ∧
      (room.status = Status.waiting → 4 ≤ room.players.length →
        join_room st roomId name pid =
          (st, Except.error (Failure.http ⟨400, "Room is full (4 players max)"⟩))) ∧
      (room.status = Status.waiting → room.players.length < 4 →
        ∃ st', join_room st roomId name pid =
            (st', Except.ok (pid, room.players.length + 1)) ∧
          (∃ room', lookupA st'.rooms roomId = some room' ∧
            room'.players = room.players ++ [pid] ∧
            room'.status = room.status ∧ room'.roles = room.roles) ∧
          lookupA st'.players pid =
            some { name := name, roomId := roomId, totalScore := 0 } ∧
          (∀ q, q ≠ pid → lookupA st'.players q = lookupA st.players q) ∧
          (∀ rid, rid ≠ roomId → lookupA st'.rooms rid = lookupA st.rooms rid))) := by
  constructor
  · intro hr
    unfold join_room
    rw [hr]
  · intro room hr
    refine ⟨?_, ?_, ?_⟩
    · intro hs
      unfold join_room
      rw [hr]
      dsimp only
      rw [if_pos hs]
    · intro hs hlen
      unfold join_room
      rw [hr]
      dsimp only
      rw [if_neg (fun hh => hh hs), if_pos hlen]
    · intro hs hlen
      unfold join_room
      rw [hr]
      dsimp only
      rw [if_neg (fun hh => hh hs), if_neg (Nat.not_le.mpr hlen)]
      refine ⟨_, rfl, ⟨_, lookupA_setA_self .., rfl, rfl, rfl⟩,
        lookupA_setA_self .., ?_, ?_⟩
      · intro q hq
        exact lookupA_setA_ne _ _ _ _ hq
      · intro rid hrid
        exact lookupA_setA_ne _ _ _ _ hrid

/-- C7 witness: joining the full waiting room `stW0` fails Full, joining an
unknown room fails NotFound, and joining the two-player room `stJ` succeeds
with count 3. -/
theorem C7_join_contract_witness :
    join_room stW0 "r" "eve" "p9" =
      (stW0, Except.error (Failure.http ⟨400, "Room is full (4 players max)"⟩)) ∧
    join_room stJ "zz" "eve" "p9" =
      (stJ, Except.error (Failure.http ⟨404, "Room not found"⟩)) ∧
    ∃ st', join_room stJ "r" "carol" "p3" = (st', Except.ok ("p3", 3)) := by
  have hfull := ((C7_join_contract stW0 "r" "eve" "p9").2 roomW0 (by decide)).2.1
    (by decide) (by decide)
  have hnf := (C7_join_contract stJ "zz" "eve" "p9").1 (by decide)
  have hsucc := ((C7_join_contract stJ "r" "carol" "p3").2
    { players := ["p1", "p2"], status := .waiting } (by decide)).2.2 rfl (by decide)
  obtain ⟨st', hst', _⟩ := hsucc
  exact ⟨hfull, hnf, ⟨st', hst'⟩⟩

/-- C9: after a successful submitGuess, every player of the round score map
has their cumulative total increased by exactly their round score (added to
the previous total, not overwritten) and the room leaderboard entry likewise
increased additively from its previous value; and `get_result` is a pure
read — it returns the state unchanged, so repeating it yields an identical
result. -/
theorem C9_totals_and_pure_result (st : ServerState) (roomId mid tid : String)
    (room : Room) (rs : List (String × Role)) (msg : String) (scores : List (String × Nat))
    (hroom : lookupA st.rooms roomId = some room)
    (hroles : room.roles = some rs)
    (hnodup : (rs.map Prod.fst).Nodup)
    (hok : (mantri_guess st roomId mid tid).2 = Except.ok (msg, scores)) :
    (∀ pid pts, lookupA scores pid = some pts →
      ∃ pl, lookupA st.players pid = some pl ∧
        lookupA (mantri_guess st roomId mid tid).1.players pid =
          some { pl with totalScore := pl.totalScore + pts } ∧
        ∃ room2, lookupA (mantri_guess st roomId mid tid).1.rooms roomId = some room2 ∧
          lookupA room2.leaderboard pid =
            some ((lookupA room.leaderboard pid).getD 0 + pts)) ∧
    (∀ s rid, (get_result s rid).1 = s) ∧
    (∀ rid, get_result ((get_result (mantri_guess st roomId mid tid).1 rid).1) rid =
      get_result (mantri_guess st roomId mid tid).1 rid) := by
  obtain ⟨cp, ps2, lb2, hfind, hcp, hne, hmidmem, htidmem, hacc, hnfin,
      hcor, hinc, hupd, hstate⟩ :=
    mantri_guess_ok_spec st roomId mid tid room rs msg scores hroom hroles hok
  have hknd : (scores.map Prod.fst).Nodup := by
    by_cases h5 : tid = cp.1
    · obtain ⟨hsc, _⟩ := hcor h5
      rw [hsc, keys_mapSnd]
      exact hnodup
    · obtain ⟨cur, hcur, hsc, _⟩ := hinc h5
      rw [hsc]
      exact nodup_keys_setA _ _ _ (nodup_keys_setA _ _ _
        (by rw [keys_mapSnd]; exact hnodup))
  have hspec := updateTotals_spec scores st.players ps2 room.leaderboard lb2 hknd hupd
  refine ⟨?_, fun s rid => get_result_fst s rid, ?_⟩
  · intro pid pts hpid
    obtain ⟨pl, hpl, hps2, hlb2⟩ := hspec.1 pid pts hpid
    refine ⟨pl, hpl, ?_, ?_⟩
    · rw [hstate]
      exact hps2
    · rw [hstate]
      exact ⟨_, lookupA_setA_self .., hlb2⟩
  · intro rid
    rw [get_result_fst]

/-- C9 witness: after the correct guess on `stW`, p1 (Raja) has cumulative
total 0 + 1000 = 1000, and `get_result` leaves the state untouched. -/
theorem C9_totals_and_pure_result_witness :
    lookupA (mantri_guess stW "r" "p2" "p3").1.players "p1" =
      some { name := "a", roomId := "r", totalScore := 1000 } ∧
    (get_result (mantri_guess stW "r" "p2" "p3").1 "r").1 =
      (mantri_guess stW "r" "p2" "p3").1 := by
  have h := C9_totals_and_pure_result stW "r" "p2" "p3" roomW rsW
    "Mantri guessed correctly. No points transfer."
    [("p1", 1000), ("p2", 800), ("p3", 0), ("p4", 500)]
    (by decide) (by decide) (by decide) (by decide)
  obtain ⟨pl, hpl, hps, _⟩ := h.1 "p1" 1000 (by decide)
  have hpl' : pl = { name := "a", roomId := "r", totalScore := 0 } := by
    have hlk : lookupA stW.players "p1" =
        some { name := "a", roomId := "r", totalScore := 0 } := by decide
    exact Option.some.inj (hpl.symm.trans hlk)
  refine ⟨?_, h.2.1 _ "r"⟩
  rw [hpl'] at hps
  simpa using hps

theorem find?_role_isSome (rs : List (String × Role)) (v : Role)
    (h : v ∈ rs.map Prod.snd) : ∃ mp, rs.find? (fun p => p.2 == v) = some mp := by
  obtain ⟨p, hp, hv⟩ := List.mem_map.mp h
  cases hf : rs.find? (fun p => p.2 == v) with
  | some mp => exact ⟨mp, rfl⟩
  | none =>
    exfalso
    have := List.find?_eq_none.mp hf p hp
    simp [hv] at this

/-- C8: a successful assignRoles on a duplicate-free 4-player room with a
shuffled permutation of the roles stores a role map whose keys are exactly
the roster (in order) and whose values are a permutation of the four fixed
roles — a bijection between the players and the roles — and records as
accuser a roster member whose assigned role is Mantri; on a room with fewer
than 4 players it fails with InvalidState and writes nothing. -/
theorem C8_assign_bijection (st : ServerState) (roomId : String) (shuffled : List Role)
    (room : Room) (hroom : lookupA st.rooms roomId = some room) :
    (room.players.Nodup → room.players.length = 4 → shuffled.Perm ROLES →
      ∃ st' room',
        assign_roles st roomId shuffled = (st', Except.ok true) ∧
        lookupA st'.rooms roomId = some room' ∧
        ∃ rs, room'.roles = some rs ∧
          rs.map Prod.fst = room.players ∧
          (rs.map Prod.snd).Perm ROLES ∧
          ∃ m, room'.mantriId = some m ∧ lookupA rs m = some Role.Mantri ∧
            m ∈ room.players) ∧
    (room.players.length < 4 →
      assign_roles st roomId shuffled =
        (st, Except.error (Failure.http ⟨400, "Need exactly 4 players to assign roles"⟩))) := by
  constructor
  · intro hnd hlen hperm
    have hshlen : shuffled.length = 4 := by
      rw [hperm.length_eq]
      rfl
    have hle : room.players.length ≤ shuffled.length := by omega
    have hkeys : (room.players.zip shuffled).map Prod.fst = room.players :=
      List.map_fst_zip _ _ hle
    have hvals : (room.players.zip shuffled).map Prod.snd = shuffled :=
      List.map_snd_zip _ _ (by omega)
    have hznd : ((room.players.zip shuffled).map Prod.fst).Nodup := by
      rw [hkeys]
      exact hnd
    have hfold : (room.players.zip shuffled).foldl (fun acc p => setA acc p.1 p.2) [] =
        room.players.zip shuffled := by
      have hh := foldl_setA_fresh (room.players.zip shuffled) [] hznd (fun k _ => rfl)
      simpa using hh
    have hmem : Role.Mantri ∈ (room.players.zip shuffled).map Prod.snd := by
      rw [hvals]
      exact hperm.mem_iff.mpr (by decide)
    obtain ⟨mp, hfind⟩ := find?_role_isSome _ Role.Mantri hmem
    have hne4 : ¬(room.players.length ≠ 4) := fun hh => hh hlen
    obtain ⟨st', room', hst', hlook, hroles', hmantri'⟩ :
        ∃ st' room', assign_roles st roomId shuffled = (st', Except.ok true) ∧
          lookupA st'.rooms roomId = some room' ∧
          room'.roles = some (room.players.zip shuffled) ∧
          room'.mantriId = some mp.1 := by
      unfold assign_roles
      rw [hroom]
      dsimp only
      rw [if_neg hne4, if_pos hle]
      rw [hfold, hfind]
      exact ⟨_, _, rfl, lookupA_setA_self .., rfl, rfl⟩
    have hmpmem : mp ∈ room.players.zip shuffled := List.mem_of_find?_eq_some hfind
    have hmp2 : mp.2 = Role.Mantri := by
      have hpt := List.find?_some hfind
      simpa using hpt
    refine ⟨st', room', hst', hlook, room.players.zip shuffled, hroles', hkeys, ?_,
      mp.1, hmantri', ?_, ?_⟩
    · rw [hvals]
      exact hperm
    · have hmm : (mp.1, Role.Mantri) ∈ room.players.zip shuffled := by
        rw [← hmp2]
        exact hmpmem
      exact lookupA_eq_of_mem_nodup hmm hznd
    · rw [← hkeys]
      exact List.mem_map.mpr ⟨mp, hmpmem, rfl⟩
  · intro hlt
    have hne : room.players.length ≠ 4 := by omega
    unfold assign_roles
    rw [hroom]
    dsimp only
    rw [if_pos hne]

/-- C8 witness: on the concrete unassigned 4-player room `roomW0`, the
theorem applies with the identity shuffle: the call succeeds and the roster
is duplicate-free. -/
theorem C8_assign_bijection_witness :
    (assign_roles stW0 "r" [.Raja, .Mantri, .Chor, .Sipahi]).2 = Except.ok true ∧
    roomW0.players.Nodup := by
  obtain ⟨st', room', hst', _⟩ := (C8_assign_bijection stW0 "r"
    [.Raja, .Mantri, .Chor, .Sipahi] roomW0 (by decide)).1
    (by decide) (by decide) (by decide)
  exact ⟨by rw [hst'], by decide⟩

theorem commit_no_crash (st : ServerState) (roomId mid tid : String) (room : Room)
    (sc : List (String × Nat)) (msg : String)
    (h : ∀ q, q ∈ sc.map Prod.fst → ∃ pl, lookupA st.players q = some pl) :
    (commit st roomId mid tid room sc msg).2 ≠ Except.error Failure.crash := by
  unfold commit
  rcases hr : updateTotals st.players room.leaderboard sc with ⟨ps2, lb2, flag⟩
  dsimp only
  rw [hr]
  dsimp only
  have hflag : flag = true := by
    have hc := updateTotals_completes sc st.players room.leaderboard h
    rw [hr] at hc
    exact hc
  subst hflag
  rw [if_pos rfl]
  simp

theorem commit_snd_not_http (st : ServerState) (roomId mid tid : String) (room : Room)
    (sc : List (String × Nat)) (msg : String) (e : HTTPException) :
    (commit st roomId mid tid room sc msg).2 ≠ Except.error (Failure.http e) := by
  unfold commit
  rcases hr : updateTotals st.players room.leaderboard sc with ⟨ps2, lb2, flag⟩
  dsimp only
  rw [hr]
  dsimp only
  cases flag with
  | false =>
    rw [if_neg (by simp)]
    simp
  | true =>
    rw [if_pos rfl]
    simp

theorem mantri_guess_no_crash (st : ServerState) (h : StoreInv st)
    (roomId mid tid : String) :
    (mantri_guess st roomId mid tid).2 ≠ Except.error Failure.crash := by
  unfold mantri_guess
  cases hr : lookupA st.rooms roomId with
  | none => simp
  | some room =>
    dsimp only
    obtain ⟨hnd, hmem, hroles⟩ := h roomId room hr
    cases hrl : room.roles with
    | none => simp
    | some rs =>
      dsimp only
      obtain ⟨hrk, hrv⟩ := hroles rs hrl
      by_cases h1 : rs = []
      · rw [if_pos h1]; simp
      rw [if_neg h1]
      by_cases h2 : mid ∉ room.players ∨ tid ∉ room.players
      · rw [if_pos h2]; simp
      rw [if_neg h2]
      push_neg at h2
      by_cases h3 : room.mantriId ≠ some mid
      · rw [if_pos h3]; simp
      rw [if_neg h3]
      by_cases h4 : room.status = Status.finished
      · rw [if_pos h4]; simp
      rw [if_neg h4]
      have hchormem : Role.Chor ∈ rs.map Prod.snd := hrv.mem_iff.mpr (by decide)
      obtain ⟨cp, hfind⟩ := find?_role_isSome rs Role.Chor hchormem
      rw [hfind]
      dsimp only
      have hcpmem : cp ∈ rs := List.mem_of_find?_eq_some hfind
      have hcp1keys : cp.1 ∈ (rs.map (fun p => (p.1, BASE_POINTS p.2))).map Prod.fst := by
        rw [keys_mapSnd]
        exact List.mem_map.mpr ⟨cp, hcpmem, rfl⟩
      have htable : ∀ q, q ∈ rs.map Prod.fst ∨ q = mid →
          ∃ pl, lookupA st.players q = some pl := by
        intro q hq
        rcases hq with hq | hq
        · exact hmem q (hrk q hq)
        · subst hq
          exact hmem q h2.1
      by_cases h5 : tid = cp.1
      · rw [if_pos h5]
        apply commit_no_crash
        intro q hq
        rw [keys_mapSnd] at hq
        exact htable q (Or.inl hq)
      · rw [if_neg h5]
        obtain ⟨curv, hcur⟩ := lookupA_isSome_of_mem_keys hcp1keys
        rw [hcur]
        dsimp only
        apply commit_no_crash
        intro q hq
        rcases (mem_keys_setA _ _ _ q).mp hq with hq1 | hq1
        · rcases (mem_keys_setA _ _ _ q).mp hq1 with hq2 | hq2
          · rw [keys_mapSnd] at hq2
            exact htable q (Or.inl hq2)
          · subst hq2
            exact htable cp.1 (Or.inl (List.mem_map.mpr ⟨cp, hcpmem, rfl⟩))
        · exact htable q (Or.inr hq1)

theorem mantri_guess_http_state (st : ServerState) (roomId mid tid : String)
    (e : HTTPException)
    (h : (mantri_guess st roomId mid tid).2 = Except.error (Failure.http e)) :
    (mantri_guess st roomId mid tid).1 = st := by
  unfold mantri_guess at h ⊢
  cases hr : lookupA st.rooms roomId with
  | none => rfl
  | some room =>
    rw [hr] at h
    dsimp only at h ⊢
    cases hrl : room.roles with
    | none => rfl
    | some rs =>
      rw [hrl] at h
      dsimp only at h ⊢
      by_cases h1 : rs = []
      · rw [if_pos h1]
      rw [if_neg h1] at h ⊢
      by_cases h2 : mid ∉ room.players ∨ tid ∉ room.players
      · rw [if_pos h2]
      rw [if_neg h2] at h ⊢
      by_cases h3 : room.mantriId ≠ some mid
      · rw [if_pos h3]
      rw [if_neg h3] at h ⊢
      by_cases h4 : room.status = Status.finished
      · rw [if_pos h4]
      rw [if_neg h4] at h ⊢
      cases hfind : rs.find? (fun p => p.2 == Role.Chor) with
      | none => rfl
      | some cp =>
        rw [hfind] at h
        dsimp only at h ⊢
        by_cases h5 : tid = cp.1
        · rw [if_pos h5] at h
          exact absurd h (commit_snd_not_http st roomId mid tid room _ _ e)
        · rw [if_neg h5] at h ⊢
          cases hcur : lookupA (rs.map (fun p => (p.1, BASE_POINTS p.2))) cp.1 with
          | none => rfl
          | some cur =>
            rw [hcur] at h
            dsimp only at h
            exact absurd h (commit_snd_not_http st roomId mid tid room _ _ e)

/-- C10: the store invariant — every roster member of every room is a key of
the global player table, role-map keys are roster members (with the role
values a permutation of the four roles and the roster duplicate-free) — is
preserved by every state-changing operation (create, join with a fresh uuid,
assign with a shuffled permutation, guess), and under it `get_players` can
only fail with the NotFound error (its name lookups never hit a missing
player) and `mantri_guess` never ends in an unhandled exception (its
cumulative-total update never references a missing player). -/
theorem C10_store_invariant (st : ServerState) (h : StoreInv st) :
    (∀ rid pid name, StoreInv (create_room st rid pid name).1) ∧
    (∀ roomId name pid, lookupA st.players pid = none →
      StoreInv (join_room st roomId name pid).1) ∧
    (∀ roomId shuffled, shuffled.Perm ROLES →
      StoreInv (assign_roles st roomId shuffled).1) ∧
    (∀ roomId mid tid, StoreInv (mantri_guess st roomId mid tid).1) ∧
    (∀ rid e, (get_players st rid).2 = Except.error e →
      e = Failure.http ⟨404, "Room not found"⟩) ∧
    (∀ roomId mid tid, (mantri_guess st roomId mid tid).2 ≠ Except.error Failure.crash) := by
  refine ⟨?_, ?_, ?_, ?_, ?_, fun roomId mid tid => mantri_guess_no_crash st h roomId mid tid⟩
  · -- create_room
    intro rid pid name
    intro rid' room' hr'
    unfold create_room at hr'
    dsimp only at hr'
    by_cases hh : rid' = rid
    · subst hh
      rw [lookupA_setA_self] at hr'
      have he := Option.some.inj hr'
      subst he
      refine ⟨by simp, ?_, ?_⟩
      · intro q hq
        simp at hq
        subst hq
        exact ⟨_, lookupA_setA_self ..⟩
      · intro rs hrs
        simp at hrs
    · rw [lookupA_setA_ne _ _ _ _ hh] at hr'
      exact RoomOK_mono st _ _
        (fun q pl hpl => lookup_preserved_setA _ _ _ _ _ hpl) (h rid' room' hr')
  · -- join_room
    intro roomId name pid hfresh
    unfold join_room
    cases hr : lookupA st.rooms roomId with
    | none => exact h
    | some room =>
      dsimp only
      by_cases h1 : room.status ≠ Status.waiting
      · rw [if_pos h1]
        exact h
      rw [if_neg h1]
      by_cases h2 : 4 ≤ room.players.length
      · rw [if_pos h2]
        exact h
      rw [if_neg h2]
      obtain ⟨hnd, hmem, hroles⟩ := h roomId room hr
      have hpidnotin : pid ∉ room.players := by
        intro hin
        obtain ⟨pl, hpl⟩ := hmem pid hin
        rw [hfresh] at hpl
        cases hpl
      intro rid' room' hr'
      dsimp only at hr'
      by_cases hh : rid' = roomId
      · subst hh
        rw [lookupA_setA_self] at hr'
        have he := Option.some.inj hr'
        subst he
        refine ⟨?_, ?_, ?_⟩
        · simp [List.nodup_append, hnd, hpidnotin]
        · intro q hq
          dsimp only at hq
          rcases List.mem_append.mp hq with hq | hq
          · obtain ⟨pl, hpl⟩ := hmem q hq
            exact lookup_preserved_setA _ _ _ _ _ hpl
          · simp at hq
            subst hq
            exact ⟨_, lookupA_setA_self ..⟩
        · intro rs hrs
          dsimp only at hrs
          obtain ⟨hk, hv⟩ := hroles rs hrs
          refine ⟨?_, hv⟩
          intro q hq
          exact List.mem_append_left _ (hk q hq)
      · rw [lookupA_setA_ne _ _ _ _ hh] at hr'
        exact RoomOK_mono st _ _
          (fun q pl hpl => lookup_preserved_setA _ _ _ _ _ hpl) (h rid' room' hr')
  · -- assign_roles
    intro roomId shuffled hperm
    unfold assign_roles
    cases hr : lookupA st.rooms roomId with
    | none => exact h
    | some room =>
      dsimp only
      by_cases h1 : room.players.length ≠ 4
      · rw [if_pos h1]
        exact h
      rw [if_neg h1]
      have hlen : room.players.length = 4 := not_not.mp h1
      have hshlen : shuffled.length = 4 := by
        rw [hperm.length_eq]
        rfl
      rw [if_pos (by omega)]
      obtain ⟨hnd, hmem, _⟩ := h roomId room hr
      have hle : room.players.length ≤ shuffled.length := by omega
      have hkeys : (room.players.zip shuffled).map Prod.fst = room.players :=
        List.map_fst_zip _ _ hle
      have hvals : (room.players.zip shuffled).map Prod.snd = shuffled :=
        List.map_snd_zip _ _ (by omega)
      have hznd : ((room.players.zip shuffled).map Prod.fst).Nodup := by
        rw [hkeys]
        exact hnd
      have hfold : (room.players.zip shuffled).foldl (fun acc p => setA acc p.1 p.2) [] =
          room.players.zip shuffled := by
        have hh := foldl_setA_fresh (room.players.zip shuffled) [] hznd (fun k _ => rfl)
        simpa using hh
      rw [hfold]
      cases hfind : (room.players.zip shuffled).find? (fun p => p.2 == Role.Mantri) with
      | none =>
        dsimp only
        intro rid' room' hr'
        dsimp only at hr'
        by_cases hh : rid' = roomId
        · subst hh
          rw [lookupA_setA_self] at hr'
          have he := Option.some.inj hr'
          subst he
          refine ⟨hnd, hmem, ?_⟩
          intro rs hrs
          dsimp only at hrs
          have he2 := Option.some.inj hrs
          subst he2
          refine ⟨?_, ?_⟩
          · intro q hq
            rw [hkeys] at hq
            exact hq
          · rw [hvals]
            exact hperm
        · rw [lookupA_setA_ne _ _ _ _ hh] at hr'
          exact RoomOK_mono st _ _ (fun q pl hpl => ⟨pl, hpl⟩) (h rid' room' hr')
      | some mp =>
        dsimp only
        intro rid' room' hr'
        dsimp only at hr'
        by_cases hh : rid' = roomId
        · subst hh
          rw [lookupA_setA_self] at hr'
          have he := Option.some.inj hr'
          subst he
          refine ⟨hnd, hmem, ?_⟩
          intro rs hrs
          dsimp only at hrs
          have he2 := Option.some.inj hrs
          subst he2
          refine ⟨?_, ?_⟩
          · intro q hq
            rw [hkeys] at hq
            exact hq
          · rw [hvals]
            exact hperm
        · rw [lookupA_setA_ne _ _ _ _ hh] at hr'
          exact RoomOK_mono st _ _ (fun q pl hpl => ⟨pl, hpl⟩) (h rid' room' hr')
  · -- mantri_guess
    intro roomId mid tid
    cases hout : (mantri_guess st roomId mid tid).2 with
    | error e =>
      cases e with
      | crash => exact absurd hout (mantri_guess_no_crash st h roomId mid tid)
      | http e' =>
        rw [mantri_guess_http_state st roomId mid tid e' hout]
        exact h
    | ok val =>
      obtain ⟨msg, scores⟩ := val
      rcases hr : lookupA st.rooms roomId with _ | room
      · exfalso
        unfold mantri_guess at hout
        rw [hr] at hout
        simp at hout
      rcases hrl : room.roles with _ | rs
      · exfalso
        unfold mantri_guess at hout
        rw [hr] at hout
        dsimp only at hout
        rw [hrl] at hout
        simp at hout
      obtain ⟨cp, ps2, lb2, hfind, hcp, hne, hmidmem, htidmem, hacc, hnfin,
          hcor, hinc, hupd, hstate⟩ :=
        mantri_guess_ok_spec st roomId mid tid room rs msg scores hr hrl hout
      have hst1 := congrArg Prod.fst hstate
      dsimp only at hst1
      rw [hst1]
      obtain ⟨hnd, hmem, hroles⟩ := h roomId room hr
      intro rid' room' hr'
      dsimp only at hr'
      by_cases hh : rid' = roomId
      · subst hh
        rw [lookupA_setA_self] at hr'
        have he := Option.some.inj hr'
        subst he
        refine ⟨hnd, ?_, ?_⟩
        · intro q hq
          dsimp only at hq
          obtain ⟨pl, hpl⟩ := hmem q hq
          have hpres := updateTotals_lookup_preserved scores st.players
            room.leaderboard q pl hpl
          rw [hupd] at hpres
          exact hpres
        · intro rs2 hrs2
          dsimp only at hrs2
          exact hroles rs2 hrs2
      · rw [lookupA_setA_ne _ _ _ _ hh] at hr'
        refine RoomOK_mono st _ _ ?_ (h rid' room' hr')
        intro q pl hpl
        have hpres := updateTotals_lookup_preserved scores st.players
          room.leaderboard q pl hpl
        rw [hupd] at hpres
        exact hpres
  · -- get_players
    intro rid e hke
    unfold get_players at hke
    cases hr : lookupA st.rooms rid with
    | none =>
      rw [hr] at hke
      dsimp only at hke
      exact (Except.error.inj hke).symm
    | some room =>
      rw [hr] at hke
      dsimp only at hke
      obtain ⟨hnd, hmem, _⟩ := h rid room hr
      obtain ⟨out, hout⟩ := namesOf_total st.players room.players hmem
      rw [hout] at hke
      simp at hke

/-- C10 witness: the invariant holds of the empty store, survives creating a
room, and on the resulting state `mantri_guess` never crashes. -/
theorem C10_store_invariant_witness :
    StoreInv (create_room { rooms := [], players := [] } "r" "p" "alice").1 ∧
    (mantri_guess (create_room { rooms := [], players := [] } "r" "p" "alice").1
      "r" "p" "p").2 ≠ Except.error Failure.crash := by
  have h0 : StoreInv { rooms := [], players := [] } := by
    intro rid room hr
    simp [lookupA] at hr
  have h1 := (C10_store_invariant { rooms := [], players := [] } h0).1 "r" "p" "alice"
  have h2 := (C10_store_invariant
    (create_room { rooms := [], players := [] } "r" "p" "alice").1 h1).2.2.2.2.2 "r" "p" "p"
  exact ⟨h1, h2⟩
